import Mathlib

/-!
# Real-Time-Portfolio-Analytics: pool manager and readiness orchestrator

A shallow embedding of

* `backend/config/database.js` (`dbConfig`, `query`, `getClient`, `testConnection`), and
* `scripts/wait-and-launch.js` (`checkUrl`, `waitForServers`, `launchElectron`, `main`),

followed by the properties established about them.

Conventions of the embedding:

* `process.env` is a finite map from variable names to strings, read through a lookup function;
* `Date.now()` is a wall-clock reading in milliseconds, an `Int` supplied by the environment;
* a promise that may reject is an `Except` value, `try`/`catch` is a `match` on it;
* `console.log` / `console.error` calls are recorded, in order, as `LogEntry` values;
* the `pg` driver is external: the pool is a function from a statement to its outcome, and the
  original `client.query` / `client.release` methods are recorded by their invocations.
-/

namespace PortfolioAnalytics

/-! ## backend/config/database.js -/

/-- The process environment after `dotenv.config`: `none` is `undefined`. -/
abbrev Env := String → Option String

/-- JavaScript `value || fallback` on an environment string: `undefined` and the empty string are
falsy. -/
def orDefault (value : Option String) (fallback : String) : String :=
  match value with
  | none => fallback
  | some s => if s = "" then fallback else s

/-- JavaScript `parseInt(value) || fallback`: `NaN` (here `none`) and `0` are falsy. -/
def numberOrDefault (parsed : Option Int) (fallback : Int) : Int :=
  match parsed with
  | none => fallback
  | some n => if n = 0 then fallback else n

/-- The connection parameters handed to `new Pool(...)`. A `password` of `none` means the object
has no `password` property. -/
structure DbConfig where
  host : String
  port : Int
  database : String
  user : String
  max : Nat
  idleTimeoutMillis : Nat
  connectionTimeoutMillis : Nat
  password : Option String
  deriving DecidableEq, Repr

/-- The module-level `dbConfig` (lines 20-33). The builtin `parseInt` is a parameter, its `NaN`
result being `none`. `String(x)` of a string is that string. -/
def dbConfig (parseInt : Option String → Option Int) (env : Env) : DbConfig :=
  let base : DbConfig :=
    { host := orDefault (env "DB_HOST") "localhost"
      port := numberOrDefault (parseInt (env "DB_PORT")) 5432
      database := orDefault (env "DB_NAME") "portfolio_analytics"
      user := orDefault (env "DB_USER") "postgres"
      max := 20
      idleTimeoutMillis := 30000
      connectionTimeoutMillis := 2000
      password := none }
  match env "DB_PASSWORD" with
  | some value => { base with password := some value }
  | none => base

/-- A statement parameter, in the text form in which the driver sends it. -/
abbrev Param := String

/-- One row of a result: column name and value. -/
abbrev Row := List (String × String)

/-- The driver's result object: `rows` and the driver-reported `rowCount` (`null` is `none`). -/
structure QueryResult where
  rows : List Row
  rowCount : Option Nat
  deriving DecidableEq, Repr

/-- An error object rejected by the driver. -/
structure DriverError where
  message : String
  code : Option String
  deriving DecidableEq, Repr

/-- One argument of a `client.query(...args)` call, as the driver accepts it: a string (the
statement text), an array (the parameter values, each by its string conversion), or a query
config object `{ text, values }`. -/
inductive QueryArg where
  | text (sql : String)
  | values (items : List String)
  | config (sql : String) (items : List String)
  deriving DecidableEq, Repr

/-- The `args` array of a `client.query(...args)` call. -/
abbrev QueryArgs := List QueryArg

/-- JavaScript `Array.prototype.join(",")` on strings, which is how an array converts to a
string. -/
def joinComma : List String → String
  | [] => ""
  | [item] => item
  | item :: next :: rest => item ++ "," ++ joinComma (next :: rest)

/-- The string conversion of one argument: a string is itself, an array is its comma-joined
items, a plain object is `[object Object]`. -/
def QueryArg.render : QueryArg → String
  | .text sql => sql
  | .values items => joinComma items
  | .config _ _ => "[object Object]"

/-- The string conversion of `client.lastQuery` in a template literal: `undefined`, or the args
array comma-joined. -/
def renderLastQuery : Option QueryArgs → String
  | none => "undefined"
  | some args => joinComma (args.map QueryArg.render)

/-- The second line of the leak warning (line 71). -/
def lastQueryLine (lastQuery : Option QueryArgs) : String :=
  "The last executed query on this client was: " ++ renderLastQuery lastQuery

/-- The statement text a call issues: its first argument when that is a string, the `text` of
its first argument when that is a query config. -/
def statementOf : QueryArgs → Option String
  | .text sql :: _ => some sql
  | .config sql _ :: _ => some sql
  | _ => none

/-- Everything the module writes with `console.log` and `console.error`. -/
inductive LogEntry where
  | executedQuery (text : String) (duration : Int) (rows : Option Nat)
  | databaseQueryError (error : DriverError)
  | connectionTestSuccessful (firstRow : Option Row)
  | connectionTestFailed (message : String)
  | envFileHint
  | envFilePath (path : String)
  | currentDbConfig (host : String) (port : Int) (database : String) (user : String)
      (password : String)
  | clientCheckedOutTooLong
  | lastExecutedQuery (line : String)
  deriving DecidableEq, Repr

/-- The pool's own `pool.query(text, params)`: resolves with a result or rejects with an error. -/
abbrev Pool := String → Option (List Param) → Except DriverError QueryResult

/-- The exported `query` (lines 49-60). `start` and `stop` are the two `Date.now()` readings; the
second one is only taken on success. Returns the promise outcome and the console output. -/
def query (pool : Pool) (start stop : Int) (text : String) (params : Option (List Param)) :
    Except DriverError QueryResult × List LogEntry :=
  match pool text params with
  | .ok res =>
    let duration := stop - start
    (.ok res, [.executedQuery text duration res.rowCount])
  | .error error => (.error error, [.databaseQueryError error])

/-- The mask printed for a password that is set. -/
def passwordMask : String := "***"

/-- The text printed for a password that is not set. -/
def passwordNotSet : String := "(not set - add DB_PASSWORD to .env)"

/-- The password entry of the logged configuration (line 105):
`dbConfig.password ? mask : notSet`, a truthiness test, so `undefined` and the empty string both
take the second branch. -/
def passwordEntry (cfg : DbConfig) : String :=
  match cfg.password with
  | none => passwordNotSet
  | some p => if p = "" then passwordNotSet else passwordMask

/-- The exported `testConnection` (lines 91-109): `try` the liveness query, `catch` any error.
`envFile` is the resolved path of the `.env` file. -/
def testConnection (pool : Pool) (cfg : DbConfig) (envFile : String) (start stop : Int) :
    Except DriverError Bool × List LogEntry :=
  match query pool start stop "SELECT NOW()" none with
  | (.ok result, log) => (.ok true, log ++ [.connectionTestSuccessful result.rows.head?])
  | (.error error, log) =>
    (.ok false,
      log ++ [.connectionTestFailed error.message, .envFileHint, .envFilePath envFile,
        .currentDbConfig cfg.host cfg.port cfg.database cfg.user (passwordEntry cfg)])

/-- The password entries of the configurations printed in a log. -/
def loggedPasswordEntries (log : List LogEntry) : List String :=
  log.filterMap fun entry =>
    match entry with
    | .currentDbConfig _ _ _ _ password => some password
    | _ => none

/-- The row counts printed by `query` in a log. -/
def loggedRowCounts (log : List LogEntry) : List (Option Nat) :=
  log.filterMap fun entry =>
    match entry with
    | .executedQuery _ _ rows => some rows
    | _ => none

/-- The durations printed by `query` in a log. -/
def loggedDurations (log : List LogEntry) : List Int :=
  log.filterMap fun entry =>
    match entry with
    | .executedQuery _ duration _ => some duration
    | _ => none

/-- A physical client as handed out by `pool.connect()`: its `lastQuery` property (absent on a
fresh connection, left over from the previous checkout on a reused one) and the invocations of
its own `query` and `release` methods so far. -/
structure PhysicalClient where
  lastQuery : Option QueryArgs
  queryCalls : List QueryArgs
  releaseCalls : Nat
  deriving DecidableEq, Repr

/-- The leak threshold passed to `setTimeout` (line 72), in milliseconds. -/
def LEAK_THRESHOLD : Nat := 5000

/-- The state of the timer created by `setTimeout(..., 5000)`. -/
inductive LeakTimer where
  | pending (delay : Nat)
  | cleared
  | fired
  deriving DecidableEq, Repr

/-- A client as returned by `getClient`: the physical client, whether `client.query` and
`client.release` currently are the wrappers installed by `getClient`, the leak timer, and the
console output produced so far. -/
structure Client where
  lastQuery : Option QueryArgs
  queryCalls : List QueryArgs
  releaseCalls : Nat
  queryPatched : Bool
  releasePatched : Bool
  timer : LeakTimer
  log : List LogEntry
  deriving DecidableEq, Repr

/-- The exported `getClient` (lines 63-88). `connected` is the outcome of `pool.connect()`; a
rejection propagates. -/
def getClient (connected : Except DriverError PhysicalClient) : Except DriverError Client :=
  match connected with
  | .error error => .error error
  | .ok client =>
    .ok
      { lastQuery := client.lastQuery
        queryCalls := client.queryCalls
        releaseCalls := client.releaseCalls
        queryPatched := true
        releasePatched := true
        timer := .pending LEAK_THRESHOLD
        log := [] }

/-- What can happen to a checked-out client: the borrower calls `client.query(...args)`, the
borrower calls `client.release()`, or the event loop runs the timer callback. -/
inductive ClientEvent where
  | query (args : QueryArgs)
  | release
  | timeout
  deriving DecidableEq, Repr

/-- The call `client.query(...args)`: the wrapper (lines 75-78) records `lastQuery` and delegates;
once restored, the original method is called directly. -/
def Client.callQuery (client : Client) (args : QueryArgs) : Client :=
  if client.queryPatched then
    { client with lastQuery := some args, queryCalls := client.queryCalls ++ [args] }
  else
    { client with queryCalls := client.queryCalls ++ [args] }

/-- The call `client.release()`: the wrapper (lines 80-85) clears the timer, restores both
methods and delegates to the original `release`; once restored, the original is called
directly. -/
def Client.callRelease (client : Client) : Client :=
  if client.releasePatched then
    { client with
      timer := match client.timer with
        | .pending _ => .cleared
        | other => other
      queryPatched := false
      releasePatched := false
      releaseCalls := client.releaseCalls + 1 }
  else
    { client with releaseCalls := client.releaseCalls + 1 }

/-- The timer callback (lines 69-72): runs only if the timer is still pending, and only writes to
the console. -/
def Client.onTimeout (client : Client) : Client :=
  match client.timer with
  | .pending _ =>
    { client with
      timer := .fired
      log := client.log ++
        [.clientCheckedOutTooLong, .lastExecutedQuery (lastQueryLine client.lastQuery)] }
  | _ => client

/-- One event on a checked-out client. -/
def Client.step (client : Client) : ClientEvent → Client
  | .query args => client.callQuery args
  | .release => client.callRelease
  | .timeout => client.onTimeout

/-- A sequence of events on a checked-out client, in order. -/
def Client.run (client : Client) (events : List ClientEvent) : Client :=
  events.foldl Client.step client

/-- The leak warnings in a log, each by its line naming the last query. -/
def leakWarnings (log : List LogEntry) : List String :=
  log.filterMap fun entry =>
    match entry with
    | .lastExecutedQuery line => some line
    | _ => none

/-- What the borrower does with a checked-out client. -/
inductive BorrowerAction where
  | query (args : QueryArgs)
  | release
  deriving DecidableEq, Repr

/-- The event a borrower action is. -/
def BorrowerAction.toEvent : BorrowerAction → ClientEvent
  | .query args => .query args
  | .release => .release

/-- The order of events on a client whose timer was set to `delay` milliseconds at checkout, given
the borrower's actions in chronological order, each with its time in milliseconds since checkout:
the actions earlier than `delay`, the timer callback, the later actions. -/
def schedule (delay : Nat) (actions : List (Nat × BorrowerAction)) : List ClientEvent :=
  (actions.takeWhile fun a => decide (a.1 < delay)).map (fun a => a.2.toEvent)
    ++ .timeout :: (actions.dropWhile fun a => decide (a.1 < delay)).map (fun a => a.2.toEvent)

/-- A checkout followed over time: the events are ordered by the delay of the client's own
timer. -/
def Client.session (client : Client) (actions : List (Nat × BorrowerAction)) : Client :=
  match client.timer with
  | .pending delay => client.run (schedule delay actions)
  | _ => client.run (actions.map fun a => a.2.toEvent)

/-- The arguments of the last `query` event of a sequence, if any. -/
def lastIssued : List ClientEvent → Option QueryArgs
  | [] => none
  | event :: rest =>
    match lastIssued rest with
    | some args => some args
    | none =>
      match event with
      | .query args => some args
      | _ => none

/-! ## scripts/wait-and-launch.js -/

/-- The UI dev server probed by the orchestrator. -/
def FRONTEND_URL : String := "http://localhost:5173"

/-- The backend health endpoint probed by the orchestrator. -/
def BACKEND_URL : String := "http://localhost:3001/api/health"

/-- The overall deadline, in milliseconds. -/
def MAX_WAIT : Int := 60000

/-- The pause between two ticks, in milliseconds. -/
def CHECK_INTERVAL : Int := 2000

/-- What happens to one `http.request`: a response with a status code, an `error` event, or a
`timeout` event. -/
inductive ProbeResponse where
  | status (statusCode : Nat)
  | error
  | timeout
  deriving DecidableEq, Repr

/-- The function `checkUrl` (lines 11-34), given what the request to the URL meets. -/
def checkUrl (response : ProbeResponse) : Bool :=
  match response with
  | .status statusCode => statusCode == 200 || statusCode == 304
  | .error => false
  | .timeout => false

/-- What the environment supplies to one iteration of the polling loop: the fate of the two
requests, by how much the clock has moved when `Promise.all` resolves, and by how much it has
moved when the `setTimeout(resolve, CHECK_INTERVAL)` pause is over. The clock is the wall clock,
so the two amounts are integers. -/
structure Tick where
  frontend : ProbeResponse
  backend : ProbeResponse
  probeElapsed : Int
  sleepElapsed : Int
  deriving DecidableEq, Repr

/-- The lines the orchestrator writes to its own output streams. -/
inductive Output where
  | waitingForServers
  | bothServersReady
  | waitingForFrontend (url : String)
  | waitingForBackend (url : String)
  | timeoutWaiting
  | launchingElectron
  | failedToStart
  deriving DecidableEq, Repr

/-- The value `waitForServers` resolves to, with the number of ticks it ran, the clock at the
moment it resolves and the output written. -/
structure WaitResult where
  ready : Bool
  ticks : Nat
  now : Int
  out : List Output
  deriving DecidableEq, Repr

/-- The `while` loop of `waitForServers` (lines 40-59), from the deadline test of iteration
`tick` on, at clock reading `now`. `fuel` bounds the number of deadline tests. -/
def pollLoop (world : Nat → Tick) (startTime : Int) :
    Nat → Nat → Int → List Output → Option WaitResult
  | 0, _, _, _ => none
  | fuel + 1, tick, now, out =>
    if now - startTime < MAX_WAIT then
      let frontendReady := checkUrl (world tick).frontend
      let backendReady := checkUrl (world tick).backend
      let resolved := now + (world tick).probeElapsed
      if frontendReady && backendReady then
        some { ready := true, ticks := tick + 1, now := resolved,
               out := out ++ [.bothServersReady] }
      else
        let out1 := if !frontendReady then out ++ [.waitingForFrontend FRONTEND_URL] else out
        let out2 := if !backendReady then out1 ++ [.waitingForBackend BACKEND_URL] else out1
        pollLoop world startTime fuel (tick + 1) (resolved + (world tick).sleepElapsed) out2
    else
      some { ready := false, ticks := tick, now := now, out := out ++ [.timeoutWaiting] }

/-- The function `waitForServers` (lines 36-63); `startTime` is the first `Date.now()`
reading. -/
def waitForServers (world : Nat → Tick) (startTime : Int) (fuel : Nat) : Option WaitResult :=
  pollLoop world startTime fuel 0 startTime [.waitingForServers]

/-- What `main` leaves behind: the commands passed to `exec`, the status the orchestrator exits
with (`none` while the shell is still running), and the output written. -/
structure MainResult where
  spawned : List String
  exitCode : Option Int
  out : List Output
  deriving DecidableEq, Repr

/-- The function `launchElectron` (lines 65-83): one `exec`, and the orchestrator exits with the
shell's exit code once the shell exits (`shellExit`, `none` while it runs). -/
def launchElectron (shellExit : Option Int) (out : List Output) : MainResult :=
  { spawned := ["NODE_ENV=development electron ."]
    exitCode := shellExit
    out := out ++ [.launchingElectron] }

/-- The function `main` (lines 85-93). -/
def main (world : Nat → Tick) (startTime : Int) (shellExit : Option Int) (fuel : Nat) :
    Option MainResult :=
  match waitForServers world startTime fuel with
  | none => none
  | some result =>
    if result.ready then
      some (launchElectron shellExit result.out)
    else
      some { spawned := [], exitCode := some 1, out := result.out ++ [.failedToStart] }

/-- The clock reading at the deadline test of iteration `tick`. -/
def checkTime (world : Nat → Tick) (startTime : Int) : Nat → Int
  | 0 => startTime
  | tick + 1 =>
    checkTime world startTime tick + (world tick).probeElapsed + (world tick).sleepElapsed

/-- The deadline test of iteration `tick` passes: the loop body runs once more. -/
def beforeDeadline (world : Nat → Tick) (startTime : Int) (tick : Nat) : Prop :=
  checkTime world startTime tick - startTime < MAX_WAIT

instance (world : Nat → Tick) (startTime : Int) (tick : Nat) :
    Decidable (beforeDeadline world startTime tick) := by
  unfold beforeDeadline; infer_instance

/-- Both probes of a tick succeed. -/
def bothReady (t : Tick) : Bool :=
  checkUrl t.frontend && checkUrl t.backend

/-! ## Concrete inputs -/

/-- An environment that defines only `DB_PASSWORD`, with the given value. -/
def envWithPassword (value : String) : Env :=
  fun name => if name = "DB_PASSWORD" then some value else none

/-- An environment that defines nothing. -/
def emptyEnv : Env := fun _ => none

/-- A stand-in for `parseInt` on the inputs used below: nothing parses. -/
def noParse : Option String → Option Int := fun _ => none

/-- A pool on which every statement fails as against an unreachable host. -/
def unreachablePool : Pool :=
  fun _ _ => .error { message := "connect ECONNREFUSED 127.0.0.1:5432", code := some "ECONNREFUSED" }

/-- A pool that answers the liveness statement with one row and an `UPDATE` of three rows with
no rows and a row count of three, as the driver does. -/
def samplePool : Pool :=
  fun text _ =>
    if text = "SELECT NOW()" then .ok { rows := [[("now", "2024-01-01")]], rowCount := some 1 }
    else .ok { rows := [], rowCount := some 3 }

/-- A fresh physical client. -/
def freshClient : PhysicalClient := { lastQuery := none, queryCalls := [], releaseCalls := 0 }

/-- A tick in which both endpoints refuse the connection after 50 ms. -/
def downTick : Tick :=
  { frontend := .error, backend := .error, probeElapsed := 50, sleepElapsed := 2000 }

/-- A tick in which both endpoints answer 200 after one second. -/
def upTick : Tick :=
  { frontend := .status 200, backend := .status 200, probeElapsed := 1000, sleepElapsed := 2000 }

/-- Both endpoints are down for the first `n` ticks and up from then on. -/
def upFrom (n : Nat) : Nat → Tick :=
  fun tick => if tick < n then downTick else upTick

/-! ## Properties of `dbConfig`, `query` and `testConnection` -/

/-- The `password` field is the lookup of `DB_PASSWORD`. -/
theorem dbConfig_password (parseInt : Option String → Option Int) (env : Env) :
    (dbConfig parseInt env).password = env "DB_PASSWORD" := by
  unfold dbConfig
  cases h : env "DB_PASSWORD" <;> simp

/-- C2: the connection config has a `password` field exactly when `DB_PASSWORD` is defined, and
then the field is the variable's string value, also when that value is the empty string; when
the variable is absent the field is absent. -/
theorem dbConfig_password_iff_defined (parseInt : Option String → Option Int) (env : Env) :
    (dbConfig parseInt env).password = env "DB_PASSWORD" ∧
      ((dbConfig parseInt env).password.isSome ↔ (env "DB_PASSWORD").isSome) ∧
      (dbConfig parseInt emptyEnv).password = none ∧
      (dbConfig parseInt (envWithPassword "")).password = some "" := by
  refine ⟨dbConfig_password parseInt env, by rw [dbConfig_password], ?_, ?_⟩
  · rw [dbConfig_password]; rfl
  · rw [dbConfig_password]; rfl

/-- C3, at the input where the code departs from it: with `DB_PASSWORD=` (defined, empty) the
guard of line 31 puts a `password` field into the connection config, so a password is set, yet
on a failing liveness statement the truthiness test of line 105 logs the not-set text for it and
not the mask. -/
theorem testConnection_empty_password_logged_not_set :
    (dbConfig noParse (envWithPassword "")).password = some "" ∧
      (testConnection unreachablePool (dbConfig noParse (envWithPassword ""))
        "/app/.env" 0 0).1 = .ok false ∧
      loggedPasswordEntries
        (testConnection unreachablePool (dbConfig noParse (envWithPassword ""))
          "/app/.env" 0 0).2 = ["(not set - add DB_PASSWORD to .env)"] ∧
      passwordEntry (dbConfig noParse (envWithPassword "")) ≠ passwordMask := by
  refine ⟨rfl, rfl, rfl, ?_⟩
  decide

/-- The logged entry does not depend on which non-empty password is set. -/
theorem passwordEntry_same_for_all_set_passwords (parseInt : Option String → Option Int)
    (env1 env2 : Env) (p1 p2 : String) (h1 : env1 "DB_PASSWORD" = some p1)
    (h2 : env2 "DB_PASSWORD" = some p2) (hp1 : p1 ≠ "") (hp2 : p2 ≠ "") :
    passwordEntry (dbConfig parseInt env1) = passwordEntry (dbConfig parseInt env2) := by
  unfold passwordEntry
  rw [dbConfig_password, dbConfig_password, h1, h2]
  simp [hp1, hp2]

/-- When the liveness statement fails and `DB_PASSWORD` is absent or non-empty, the log holds one
password entry; it is the mask exactly when a password is set and the not-set text exactly when
none is set, and it coincides with the password only when the password is itself the mask
text. -/
theorem testConnection_logs_password_indicator (parseInt : Option String → Option Int)
    (env : Env) (pool : Pool) (envFile : String) (start stop : Int) (error : DriverError)
    (hfail : pool "SELECT NOW()" none = .error error) (hset : env "DB_PASSWORD" ≠ some "") :
    ∃ entry,
      loggedPasswordEntries
        (testConnection pool (dbConfig parseInt env) envFile start stop).2 = [entry] ∧
      (entry = passwordMask ↔ (dbConfig parseInt env).password.isSome) ∧
      (entry = passwordNotSet ↔ (dbConfig parseInt env).password = none) ∧
      ∀ p, (dbConfig parseInt env).password = some p → (entry = p ↔ p = passwordMask) := by
  have hpw : (dbConfig parseInt env).password = env "DB_PASSWORD" :=
    dbConfig_password parseInt env
  refine ⟨passwordEntry (dbConfig parseInt env), ?_, ?_, ?_, ?_⟩
  · simp [testConnection, query, hfail, loggedPasswordEntries]
  · unfold passwordEntry
    rw [hpw]
    cases h : env "DB_PASSWORD" with
    | none => simp [passwordNotSet, passwordMask]
    | some p =>
      have hp : p ≠ "" := fun hp => hset (by rw [h, hp])
      simp [hp]
  · unfold passwordEntry
    rw [hpw]
    cases h : env "DB_PASSWORD" with
    | none => simp
    | some p =>
      have hp : p ≠ "" := fun hp => hset (by rw [h, hp])
      simp [hp, passwordNotSet, passwordMask]
  · intro p hp
    have hne : p ≠ "" := fun h0 => hset (by rw [← hpw, hp, h0])
    unfold passwordEntry
    rw [hp]
    simp only [hne, if_false]
    exact eq_comm

/-- C4: `testConnection` never raises: it resolves to `true` when the liveness statement succeeds
and to `false` when the statement fails, whatever the error. -/
theorem testConnection_never_raises (pool : Pool) (cfg : DbConfig) (envFile : String)
    (start stop : Int) :
    ∃ b, (testConnection pool cfg envFile start stop).1 = .ok b ∧
      (b = true ↔ ∃ result, pool "SELECT NOW()" none = .ok result) ∧
      (b = false ↔ ∃ error, pool "SELECT NOW()" none = .error error) := by
  cases h : pool "SELECT NOW()" none with
  | ok result => exact ⟨true, by simp [testConnection, query, h]⟩
  | error error => exact ⟨false, by simp [testConnection, query, h]⟩

/-- C5: `query` fails exactly when the pool's query fails, and its outcome, error or result, is
the pool's outcome unchanged. -/
theorem query_propagates_pool_outcome (pool : Pool) (start stop : Int) (text : String)
    (params : Option (List Param)) :
    (query pool start stop text params).1 = pool text params ∧
      ((∃ error, (query pool start stop text params).1 = .error error) ↔
        ∃ error, pool text params = .error error) := by
  have h : (query pool start stop text params).1 = pool text params := by
    unfold query
    cases pool text params <;> rfl
  exact ⟨h, by rw [h]⟩

/-- C6, as stated, fails: an `UPDATE` of three rows succeeds through `query` with a row count of
three and no rows in the result. -/
theorem query_rowCount_differs_from_rows :
    ∃ result,
      (query samplePool 1000 1005 "UPDATE holdings SET quantity = 0" none).1 = .ok result ∧
      result.rowCount = some 3 ∧ result.rows.length = 0 :=
  ⟨{ rows := [], rowCount := some 3 }, rfl, rfl, rfl⟩

/-- C6, amended: when `query` succeeds it returns the pool's result unchanged and logs that
result's own `rowCount`; the logged duration is the end reading minus the start reading, which
is non-negative when the end reading is not earlier than the start reading. -/
theorem query_success_logs_rowCount_and_duration (pool : Pool) (start stop : Int)
    (text : String) (params : Option (List Param)) (result : QueryResult)
    (hok : (query pool start stop text params).1 = .ok result) (hclock : start ≤ stop) :
    pool text params = .ok result ∧
      loggedRowCounts (query pool start stop text params).2 = [result.rowCount] ∧
      loggedDurations (query pool start stop text params).2 = [stop - start] ∧
      0 ≤ stop - start := by
  unfold query at hok ⊢
  cases h : pool text params with
  | ok res =>
    rw [h] at hok
    simp only [Except.ok.injEq] at hok
    subst hok
    refine ⟨rfl, ?_, ?_, by omega⟩ <;> simp [loggedRowCounts, loggedDurations]
  | error error =>
    rw [h] at hok
    simp at hok

/-- C6, amended, at a concrete input: the liveness statement, taking five milliseconds. -/
theorem query_success_logs_rowCount_and_duration_witness :
    samplePool "SELECT NOW()" none = .ok { rows := [[("now", "2024-01-01")]], rowCount := some 1 } ∧
      loggedRowCounts (query samplePool 1000 1005 "SELECT NOW()" none).2 = [some 1] ∧
      loggedDurations (query samplePool 1000 1005 "SELECT NOW()" none).2 = [1005 - 1000] ∧
      (0 : Int) ≤ 1005 - 1000 :=
  query_success_logs_rowCount_and_duration samplePool 1000 1005 "SELECT NOW()" none
    { rows := [[("now", "2024-01-01")]], rowCount := some 1 } rfl (by decide)

/-! ## Properties of `getClient` -/

/-- What `getClient` returns when the pool hands out a client. -/
theorem getClient_ok {connected : Except DriverError PhysicalClient} {client : Client}
    (h : getClient connected = .ok client) :
    client.queryPatched = true ∧ client.releasePatched = true ∧
      client.timer = .pending LEAK_THRESHOLD ∧ client.log = [] := by
  unfold getClient at h
  cases connected with
  | error error => simp at h
  | ok phys =>
    simp only [Except.ok.injEq] at h
    subst h
    exact ⟨rfl, rfl, rfl, rfl⟩

theorem run_nil (client : Client) : client.run [] = client := rfl

theorem run_cons (client : Client) (event : ClientEvent) (events : List ClientEvent) :
    client.run (event :: events) = (client.step event).run events := rfl

theorem run_append (client : Client) (xs ys : List ClientEvent) :
    client.run (xs ++ ys) = (client.run xs).run ys := by
  simp [Client.run, List.foldl_append]

/-- Once the original `release` is back in place, every call goes straight to it. -/
theorem run_release_unpatched (n : Nat) (client : Client) (h : client.releasePatched = false) :
    client.run (List.replicate n .release)
      = { client with releaseCalls := client.releaseCalls + n } := by
  induction n generalizing client with
  | zero => rfl
  | succ n ih =>
    rw [List.replicate_succ, run_cons]
    have hstep : client.step .release = { client with releaseCalls := client.releaseCalls + 1 } := by
      simp [Client.step, Client.callRelease, h]
    rw [hstep, ih { client with releaseCalls := client.releaseCalls + 1 } h]
    simp only [Client.mk.injEq, and_true, true_and]
    omega

/-- C1, as stated, fails: two calls of `release` on a client returned by `getClient` invoke the
pool's own release twice, one call invokes it once. -/
theorem release_twice_invokes_pool_release_twice :
    ∃ client, getClient (.ok freshClient) = .ok client ∧
      (client.run [.release]).releaseCalls = 1 ∧
      (client.run [.release, .release]).releaseCalls = 2 :=
  ⟨_, rfl, rfl, rfl⟩

/-- C1, amended: `n >= 1` calls of `release` on a client returned by `getClient` leave the client
as one call does (timer cancelled, original `query` and `release` restored), except that the
pool's own release has been invoked `n` times, once per call. -/
theorem release_n_times_invokes_pool_release_n_times
    (connected : Except DriverError PhysicalClient) (client : Client) (n : Nat)
    (h : getClient connected = .ok client) (hn : 1 ≤ n) :
    client.run (List.replicate n .release)
        = { client.run [.release] with releaseCalls := client.releaseCalls + n } ∧
      (client.run [.release]).timer = .cleared ∧
      (client.run [.release]).queryPatched = false ∧
      (client.run [.release]).releasePatched = false ∧
      (client.run [.release]).releaseCalls = client.releaseCalls + 1 := by
  obtain ⟨hq, hr, ht, hl⟩ := getClient_ok h
  obtain ⟨m, rfl⟩ : ∃ m, n = m + 1 := ⟨n - 1, by omega⟩
  have hone : client.run [.release] = client.step .release := rfl
  have hstep : client.step .release =
      { client with timer := .cleared, queryPatched := false, releasePatched := false,
                    releaseCalls := client.releaseCalls + 1 } := by
    simp [Client.step, Client.callRelease, hr, ht]
  refine ⟨?_, ?_, ?_, ?_, ?_⟩
  · rw [List.replicate_succ, run_cons, hone, hstep, run_release_unpatched m _ rfl]
    simp only [Client.mk.injEq, and_true, true_and]
    omega
  all_goals rw [hone, hstep]

/-- C1, amended, at a concrete input: three calls on a fresh client. -/
theorem release_n_times_invokes_pool_release_n_times_witness :
    1 ≤ 3 ∧ ∃ client, getClient (.ok freshClient) = .ok client ∧
      client.run (List.replicate 3 .release)
        = { client.run [.release] with releaseCalls := client.releaseCalls + 3 } :=
  ⟨by decide, _, rfl,
    (release_n_times_invokes_pool_release_n_times (.ok freshClient) _ 3 rfl (by decide)).1⟩

/-- While the borrower only issues queries, the wrappers and the timer stay in place, nothing is
logged or released, and `lastQuery` follows the last query issued. -/
theorem run_queries (pre : List ClientEvent) (client : Client)
    (hq : client.queryPatched = true)
    (hpre : ∀ e ∈ pre, e ≠ ClientEvent.release ∧ e ≠ ClientEvent.timeout) :
    (client.run pre).queryPatched = true ∧
      (client.run pre).releasePatched = client.releasePatched ∧
      (client.run pre).timer = client.timer ∧
      (client.run pre).log = client.log ∧
      (client.run pre).releaseCalls = client.releaseCalls ∧
      (client.run pre).lastQuery =
        (match lastIssued pre with
          | some args => some args
          | none => client.lastQuery) := by
  induction pre generalizing client with
  | nil => exact ⟨hq, rfl, rfl, rfl, rfl, rfl⟩
  | cons event rest ih =>
    have hrest : ∀ e ∈ rest, e ≠ ClientEvent.release ∧ e ≠ ClientEvent.timeout :=
      fun e he => hpre e (List.mem_cons_of_mem _ he)
    have hev := hpre event (List.mem_cons_self _ _)
    cases event with
    | release => exact absurd rfl hev.1
    | timeout => exact absurd rfl hev.2
    | query args =>
      have hstep : client.step (.query args) =
          { client with lastQuery := some args, queryCalls := client.queryCalls ++ [args] } := by
        simp [Client.step, Client.callQuery, hq]
      rw [run_cons, hstep]
      obtain ⟨h1, h2, h3, h4, h5, h6⟩ :=
        ih { client with lastQuery := some args, queryCalls := client.queryCalls ++ [args] } hq
          hrest
      refine ⟨h1, h2, h3, h4, h5, ?_⟩
      rw [h6]
      simp only [lastIssued]
      cases lastIssued rest <;> rfl

/-- Once the timer is cleared or has fired, no later event adds a leak warning. -/
theorem run_no_warning (post : List ClientEvent) (client : Client)
    (ht : ∀ delay, client.timer ≠ .pending delay) :
    leakWarnings (client.run post).log = leakWarnings client.log := by
  induction post generalizing client with
  | nil => rfl
  | cons event rest ih =>
    rw [run_cons]
    cases event with
    | query args =>
      have h : (client.step (.query args)).timer = client.timer ∧
          (client.step (.query args)).log = client.log := by
        simp only [Client.step, Client.callQuery]
        split <;> exact ⟨rfl, rfl⟩
      rw [ih _ (by rw [h.1]; exact ht), h.2]
    | release =>
      have h : (∀ delay, (client.step .release).timer ≠ .pending delay) ∧
          (client.step .release).log = client.log := by
        simp only [Client.step, Client.callRelease]
        split
        · refine ⟨?_, rfl⟩
          intro delay
          cases hcl : client.timer with
          | pending d => exact absurd hcl (ht d)
          | cleared => simp
          | fired => simp
        · exact ⟨ht, rfl⟩
      rw [ih _ h.1, h.2]
    | timeout =>
      have h : client.step .timeout = client := by
        show client.onTimeout = client
        unfold Client.onTimeout
        cases hcl : client.timer with
        | pending delay => exact absurd hcl (ht delay)
        | cleared => rfl
        | fired => rfl
      rw [h, ih _ ht]

/-- C9, at the input where the code departs from it: the borrower issues
`client.query({ text: 'SELECT 1', values: [] })` and holds the client past the threshold. One
leak warning is written, but its line is the string conversion of the args array, which for a
query config is `[object Object]`: the statement issued does not occur in it. -/
theorem leak_warning_config_query_prints_object_Object :
    ∃ client, getClient (.ok freshClient) = .ok client ∧
      statementOf [.config "SELECT 1" []] = some "SELECT 1" ∧
      leakWarnings
        (client.session [(4999, .query [.config "SELECT 1" []]), (5001, .release)]).log
          = ["The last executed query on this client was: [object Object]"] ∧
      ¬ ("SELECT 1".data <:+:
        "The last executed query on this client was: [object Object]".data) := by
  refine ⟨_, rfl, rfl, ?_, ?_⟩
  · decide
  · decide

/-- Once the timer is cleared or has fired, it never becomes pending again. -/
theorem run_timer_not_pending (post : List ClientEvent) (client : Client)
    (ht : ∀ delay, client.timer ≠ .pending delay) :
    ∀ delay, (client.run post).timer ≠ .pending delay := by
  induction post generalizing client with
  | nil => exact ht
  | cons event rest ih =>
    rw [run_cons]
    apply ih
    cases event with
    | query args =>
      have h : (client.step (.query args)).timer = client.timer := by
        simp only [Client.step, Client.callQuery]
        split <;> rfl
      rw [h]; exact ht
    | release =>
      simp only [Client.step, Client.callRelease]
      split
      · intro delay
        cases hcl : client.timer with
        | pending d => exact absurd hcl (ht d)
        | cleared => simp
        | fired => simp
      · exact ht
    | timeout =>
      have h : client.step .timeout = client := by
        show client.onTimeout = client
        unfold Client.onTimeout
        cases hcl : client.timer with
        | pending delay => exact absurd hcl (ht delay)
        | cleared => rfl
        | fired => rfl
      rw [h]; exact ht

/-- A `release` issued before the timer callback runs leaves the timer not pending, and writes
no leak warning. -/
theorem run_release_no_warning (xs : List ClientEvent) (client : Client)
    (hno : ∀ e ∈ xs, e ≠ ClientEvent.timeout) (hrel : ClientEvent.release ∈ xs)
    (hinv : client.releasePatched = true ∨ ∀ delay, client.timer ≠ .pending delay) :
    (∀ delay, (client.run xs).timer ≠ .pending delay) ∧
      leakWarnings (client.run xs).log = leakWarnings client.log := by
  induction xs generalizing client with
  | nil => simp at hrel
  | cons event rest ih =>
    have hrest : ∀ e ∈ rest, e ≠ ClientEvent.timeout :=
      fun e he => hno e (List.mem_cons_of_mem _ he)
    rw [run_cons]
    cases event with
    | timeout => exact absurd rfl (hno _ (List.mem_cons_self _ _))
    | query args =>
      have hmem : ClientEvent.release ∈ rest := by
        rcases List.mem_cons.mp hrel with h | h
        · cases h
        · exact h
      have h : (client.step (.query args)).timer = client.timer ∧
          (client.step (.query args)).log = client.log ∧
          (client.step (.query args)).releasePatched = client.releasePatched := by
        simp only [Client.step, Client.callQuery]
        split <;> exact ⟨rfl, rfl, rfl⟩
      obtain ⟨r1, r2⟩ := ih (client.step (.query args)) hrest hmem
        (by rw [h.1, h.2.2]; exact hinv)
      exact ⟨r1, by rw [r2, h.2.1]⟩
    | release =>
      have h : (∀ delay, (client.step .release).timer ≠ .pending delay) ∧
          (client.step .release).log = client.log := by
        simp only [Client.step, Client.callRelease]
        split
        · refine ⟨?_, rfl⟩
          intro delay
          cases hcl : client.timer <;> simp
        · rename_i hunpatched
          rcases hinv with hp | hp
          · exact absurd hp hunpatched
          · exact ⟨hp, rfl⟩
      exact ⟨run_timer_not_pending rest _ h.1, by rw [run_no_warning rest _ h.1, h.2]⟩

/-- The timer callback changes nothing of the client but the timer and the console output. -/
theorem onTimeout_leaves_client (client : Client) :
    client.onTimeout.lastQuery = client.lastQuery ∧
      client.onTimeout.queryCalls = client.queryCalls ∧
      client.onTimeout.releaseCalls = client.releaseCalls ∧
      client.onTimeout.queryPatched = client.queryPatched ∧
      client.onTimeout.releasePatched = client.releasePatched := by
  unfold Client.onTimeout
  cases client.timer <;> exact ⟨rfl, rfl, rfl, rfl, rfl⟩

/-- For a call whose first argument is the statement text, the warning line holds that text. -/
theorem lastQueryLine_holds_text (sql : String) (rest : QueryArgs) :
    ∃ suffix, lastQueryLine (some (.text sql :: rest))
      = "The last executed query on this client was: " ++ sql ++ suffix := by
  cases rest with
  | nil => exact ⟨"", by simp [lastQueryLine, renderLastQuery, joinComma, QueryArg.render]⟩
  | cons next more =>
    exact ⟨"," ++ joinComma ((next :: more).map QueryArg.render), by
      simp [lastQueryLine, renderLastQuery, joinComma, QueryArg.render, String.append_assoc]⟩

/-- The timing of the leak warning on a client returned by `getClient`: if no `release` is
issued earlier than 5000 ms after checkout, exactly one leak warning is written, with the string
conversion of the `lastQuery` recorded by then; if a `release` is issued earlier than 5000 ms,
no leak warning is written. -/
theorem leak_warning_at_threshold
    (connected : Except DriverError PhysicalClient) (client : Client)
    (actions : List (Nat × BorrowerAction)) (h : getClient connected = .ok client) :
    ((∀ a ∈ actions, a.1 < 5000 → a.2 ≠ BorrowerAction.release) →
        leakWarnings (client.session actions).log =
          [lastQueryLine (client.run
            ((actions.takeWhile fun a => decide (a.1 < 5000)).map
              fun a => a.2.toEvent)).lastQuery]) ∧
      ((∃ a ∈ actions.takeWhile (fun a => decide (a.1 < 5000)),
          a.2 = BorrowerAction.release) →
        leakWarnings (client.session actions).log = []) := by
  obtain ⟨hq, hr, ht, hl⟩ := getClient_ok h
  have hsession : client.session actions = client.run (schedule 5000 actions) := by
    unfold Client.session
    rw [ht]
    rfl
  have hevents : ∀ e ∈ (actions.takeWhile fun a => decide (a.1 < 5000)).map
      (fun a => a.2.toEvent), e ≠ ClientEvent.timeout := by
    intro e he
    obtain ⟨a, _, rfl⟩ := List.mem_map.mp he
    cases a.2 <;> simp [BorrowerAction.toEvent]
  constructor
  · intro hnorel
    have hpre : ∀ e ∈ (actions.takeWhile fun a => decide (a.1 < 5000)).map
        (fun a => a.2.toEvent), e ≠ ClientEvent.release ∧ e ≠ ClientEvent.timeout := by
      intro e he
      refine ⟨?_, hevents e he⟩
      obtain ⟨a, ha, rfl⟩ := List.mem_map.mp he
      have hlt : a.1 < 5000 := by simpa using List.mem_takeWhile_imp ha
      have hmem : a ∈ actions := (List.takeWhile_sublist _).subset ha
      have := hnorel a hmem hlt
      cases hact : a.2 with
      | release => exact absurd hact this
      | query args => simp [BorrowerAction.toEvent]
    obtain ⟨_, _, p3, p4, _, _⟩ := run_queries _ client hq hpre
    rw [hsession]
    unfold schedule
    rw [run_append, run_cons]
    have hstep : (client.run ((actions.takeWhile fun a => decide (a.1 < 5000)).map
          fun a => a.2.toEvent)).step .timeout =
        { client.run ((actions.takeWhile fun a => decide (a.1 < 5000)).map
            fun a => a.2.toEvent) with
          timer := .fired
          log := (client.run ((actions.takeWhile fun a => decide (a.1 < 5000)).map
              fun a => a.2.toEvent)).log ++
            [.clientCheckedOutTooLong,
              .lastExecutedQuery (lastQueryLine (client.run
                ((actions.takeWhile fun a => decide (a.1 < 5000)).map
                  fun a => a.2.toEvent)).lastQuery)] } := by
      simp [Client.step, Client.onTimeout, p3, ht]
    rw [hstep, run_no_warning _ _ (by intro delay; simp), p4, hl]
    simp [leakWarnings]
  · intro ⟨a, ha, hact⟩
    have hrel : ClientEvent.release ∈ (actions.takeWhile fun a => decide (a.1 < 5000)).map
        (fun a => a.2.toEvent) :=
      List.mem_map.mpr ⟨a, ha, by rw [hact]; rfl⟩
    obtain ⟨r1, r2⟩ := run_release_no_warning _ client hevents hrel (Or.inl hr)
    rw [hsession]
    unfold schedule
    rw [run_append, run_no_warning _ _ r1, r2, hl]
    rfl

/-! ## Properties of `waitForServers` and `main` -/

/-- An iteration that starts before the deadline with a failing probe goes on to the next one. -/
theorem pollLoop_continue (world : Nat → Tick) (startTime : Int) (fuel k : Nat)
    (out : List Output) (hopen : beforeDeadline world startTime k)
    (hdown : bothReady (world k) = false) :
    ∃ out1, pollLoop world startTime (fuel + 1) k (checkTime world startTime k) out
      = pollLoop world startTime fuel (k + 1) (checkTime world startTime (k + 1)) out1 := by
  unfold beforeDeadline at hopen
  unfold bothReady at hdown
  refine ⟨if !checkUrl (world k).backend then
      (if !checkUrl (world k).frontend then out ++ [.waitingForFrontend FRONTEND_URL]
        else out) ++ [.waitingForBackend BACKEND_URL]
    else
      (if !checkUrl (world k).frontend then out ++ [.waitingForFrontend FRONTEND_URL]
        else out), ?_⟩
  rw [pollLoop, if_pos hopen]
  simp only [hdown, checkTime]
  rfl

/-- An iteration that starts before the deadline with both probes succeeding resolves to
`true`. -/
theorem pollLoop_ready (world : Nat → Tick) (startTime : Int) (fuel k : Nat)
    (out : List Output) (hopen : beforeDeadline world startTime k)
    (hup : bothReady (world k) = true) :
    pollLoop world startTime (fuel + 1) k (checkTime world startTime k) out
      = some { ready := true, ticks := k + 1,
               now := checkTime world startTime k + (world k).probeElapsed,
               out := out ++ [.bothServersReady] } := by
  unfold beforeDeadline at hopen
  unfold bothReady at hup
  rw [pollLoop, if_pos hopen]
  simp only [hup]
  rfl

/-- An iteration whose deadline test fails resolves to `false`. -/
theorem pollLoop_timeout (world : Nat → Tick) (startTime : Int) (fuel k : Nat)
    (out : List Output) (hclosed : ¬ beforeDeadline world startTime k) :
    pollLoop world startTime (fuel + 1) k (checkTime world startTime k) out
      = some { ready := false, ticks := k, now := checkTime world startTime k,
               out := out ++ [.timeoutWaiting] } := by
  unfold beforeDeadline at hclosed
  rw [pollLoop, if_neg hclosed]

/-- The loop runs through any stretch of iterations that start before the deadline and have a
failing probe. -/
theorem pollLoop_skip (world : Nat → Tick) (startTime : Int) (d : Nat) :
    ∀ (fuel k : Nat) (out : List Output),
      (∀ j, k ≤ j → j < k + d →
        beforeDeadline world startTime j ∧ bothReady (world j) = false) →
      ∃ out1, pollLoop world startTime (fuel + d) k (checkTime world startTime k) out
        = pollLoop world startTime fuel (k + d) (checkTime world startTime (k + d)) out1 := by
  induction d with
  | zero => intro fuel k out _; exact ⟨out, rfl⟩
  | succ d ih =>
    intro fuel k out h
    obtain ⟨hopen, hdown⟩ := h k (Nat.le_refl k) (by omega)
    obtain ⟨out1, h1⟩ := pollLoop_continue world startTime (fuel + d) k out hopen hdown
    obtain ⟨out2, h2⟩ := ih fuel (k + 1) out1 (fun j hj1 hj2 => h j (by omega) (by omega))
    refine ⟨out2, ?_⟩
    have e1 : fuel + (d + 1) = fuel + d + 1 := by omega
    have e2 : k + (d + 1) = k + 1 + d := by omega
    rw [e1, h1, h2, e2]

/-- If the first `n` iterations start before the deadline with a failing probe and iteration `n`
starts before the deadline with both probes succeeding, `waitForServers` resolves to `true` in
that iteration. -/
theorem waitForServers_ready_at (world : Nat → Tick) (startTime : Int) (n fuel : Nat)
    (hfuel : n < fuel)
    (hbefore : ∀ j < n, beforeDeadline world startTime j ∧ bothReady (world j) = false)
    (hopen : beforeDeadline world startTime n) (hup : bothReady (world n) = true) :
    ∃ out, waitForServers world startTime fuel
      = some { ready := true, ticks := n + 1,
               now := checkTime world startTime n + (world n).probeElapsed, out := out } := by
  obtain ⟨f, rfl⟩ : ∃ f, fuel = f + 1 + n := ⟨fuel - 1 - n, by omega⟩
  obtain ⟨out1, h1⟩ := pollLoop_skip world startTime n (f + 1) 0 [.waitingForServers]
    (fun j _ hj => hbefore j (by omega))
  refine ⟨out1 ++ [.bothServersReady], ?_⟩
  have h2 := pollLoop_ready world startTime f n out1 hopen hup
  unfold waitForServers
  simp only [Nat.zero_add, checkTime] at h1
  rw [h1, h2]

/-- If the first `n` iterations start before the deadline with a failing probe and the deadline
test of iteration `n` fails, `waitForServers` resolves to `false` after `n` ticks. -/
theorem waitForServers_timeout_at (world : Nat → Tick) (startTime : Int) (n fuel : Nat)
    (hfuel : n < fuel)
    (hbefore : ∀ j < n, beforeDeadline world startTime j ∧ bothReady (world j) = false)
    (hclosed : ¬ beforeDeadline world startTime n) :
    ∃ out, waitForServers world startTime fuel
      = some { ready := false, ticks := n, now := checkTime world startTime n, out := out } := by
  obtain ⟨f, rfl⟩ : ∃ f, fuel = f + 1 + n := ⟨fuel - 1 - n, by omega⟩
  obtain ⟨out1, h1⟩ := pollLoop_skip world startTime n (f + 1) 0 [.waitingForServers]
    (fun j _ hj => hbefore j (by omega))
  refine ⟨out1 ++ [.timeoutWaiting], ?_⟩
  have h2 := pollLoop_timeout world startTime f n out1 hclosed
  unfold waitForServers
  simp only [Nat.zero_add, checkTime] at h1
  rw [h1, h2]

/-- Whenever the loop resolves to `true`, it does so in an iteration that started before the
deadline, at the moment that iteration's probes resolved. -/
theorem pollLoop_ready_inv (world : Nat → Tick) (startTime : Int) (fuel : Nat) :
    ∀ (k : Nat) (out : List Output) (r : WaitResult),
      pollLoop world startTime fuel k (checkTime world startTime k) out = some r →
      r.ready = true →
      ∃ j, r.ticks = j + 1 ∧ beforeDeadline world startTime j ∧ bothReady (world j) = true ∧
        r.now = checkTime world startTime j + (world j).probeElapsed := by
  induction fuel with
  | zero => intro k out r h; simp [pollLoop] at h
  | succ fuel ih =>
    intro k out r h hr
    by_cases hopen : beforeDeadline world startTime k
    · cases hup : bothReady (world k) with
      | true =>
        rw [pollLoop_ready world startTime fuel k out hopen hup] at h
        simp only [Option.some.injEq] at h
        subst h
        exact ⟨k, rfl, hopen, hup, rfl⟩
      | false =>
        obtain ⟨out1, h1⟩ := pollLoop_continue world startTime fuel k out hopen hup
        rw [h1] at h
        exact ih (k + 1) out1 r h hr
    · rw [pollLoop_timeout world startTime fuel k out hopen] at h
      simp only [Option.some.injEq] at h
      subst h
      simp at hr

/-- With `n` the iteration whose deadline test is the first to fail, `waitForServers` resolves,
to `true` exactly when one of the `n` ticks before it has both probes succeeding, after at most
`n` ticks. -/
theorem waitForServers_resolves (world : Nat → Tick) (startTime : Int) (n fuel : Nat)
    (hopen : ∀ j < n, beforeDeadline world startTime j)
    (hclosed : ¬ beforeDeadline world startTime n) (hfuel : n < fuel) :
    ∃ w, waitForServers world startTime fuel = some w ∧ w.ticks ≤ n ∧
      (w.ready = true ↔ ∃ j < n, bothReady (world j) = true) := by
  by_cases hex : ∃ j, j < n ∧ bothReady (world j) = true
  · have hm := Nat.find_spec hex
    have hmin : ∀ j < Nat.find hex,
        beforeDeadline world startTime j ∧ bothReady (world j) = false := by
      intro j hj
      refine ⟨hopen j (by omega), ?_⟩
      have := Nat.find_min hex hj
      cases hb : bothReady (world j) with
      | false => rfl
      | true => exact absurd ⟨by omega, hb⟩ this
    obtain ⟨out, h⟩ := waitForServers_ready_at world startTime (Nat.find hex) fuel (by omega)
      hmin (hopen _ hm.1) hm.2
    exact ⟨_, h, by show Nat.find hex + 1 ≤ n; omega, by simpa using hex⟩
  · have hnone : ∀ j < n, beforeDeadline world startTime j ∧ bothReady (world j) = false := by
      intro j hj
      refine ⟨hopen j hj, ?_⟩
      cases hb : bothReady (world j) with
      | false => rfl
      | true => exact absurd ⟨j, hj, hb⟩ hex
    obtain ⟨out, h⟩ := waitForServers_timeout_at world startTime n fuel hfuel hnone hclosed
    refine ⟨_, h, Nat.le_refl n, ?_⟩
    constructor
    · intro hr; simp at hr
    · intro ⟨j, hj, hb⟩; exact absurd ⟨j, hj, hb⟩ hex

/-- The first deadline test is taken at the start reading itself and passes. -/
theorem beforeDeadline_zero (world : Nat → Tick) (startTime : Int) :
    beforeDeadline world startTime 0 := by
  simp [beforeDeadline, checkTime, MAX_WAIT]

/-- If some iteration fails its deadline test or has both probes succeeding, `waitForServers`
resolves: either to `true`, in the first iteration with both probes succeeding, which started
before the deadline, or to `false`, at the first failing deadline test, no tick that ran having
both probes succeeding. -/
theorem waitForServers_stops (world : Nat → Tick) (startTime : Int) (n fuel : Nat)
    (hstop : ¬ beforeDeadline world startTime n ∨ bothReady (world n) = true)
    (hfuel : n < fuel) :
    ∃ w, waitForServers world startTime fuel = some w ∧ w.ticks ≤ n + 1 ∧
      ((w.ready = true ∧ ∃ k, w.ticks = k + 1 ∧ beforeDeadline world startTime k ∧
          bothReady (world k) = true ∧ ∀ j < k, bothReady (world j) = false) ∨
        (w.ready = false ∧ ¬ beforeDeadline world startTime w.ticks ∧
          ∀ j < w.ticks, bothReady (world j) = false)) := by
  have hex : ∃ m, ¬ beforeDeadline world startTime m ∨ bothReady (world m) = true := ⟨n, hstop⟩
  have hle : Nat.find hex ≤ n := Nat.find_min' hex hstop
  have hmin : ∀ j < Nat.find hex,
      beforeDeadline world startTime j ∧ bothReady (world j) = false := by
    intro j hj
    have h := Nat.find_min hex hj
    rw [not_or, not_not] at h
    exact ⟨h.1, by simpa using h.2⟩
  by_cases hopen : beforeDeadline world startTime (Nat.find hex)
  · have hup : bothReady (world (Nat.find hex)) = true := by
      rcases Nat.find_spec hex with h | h
      · exact absurd hopen h
      · exact h
    obtain ⟨out, h⟩ := waitForServers_ready_at world startTime (Nat.find hex) fuel (by omega)
      hmin hopen hup
    exact ⟨_, h, by show Nat.find hex + 1 ≤ n + 1; omega,
      Or.inl ⟨rfl, Nat.find hex, rfl, hopen, hup, fun j hj => (hmin j hj).2⟩⟩
  · obtain ⟨out, h⟩ := waitForServers_timeout_at world startTime (Nat.find hex) fuel (by omega)
      hmin hopen
    exact ⟨_, h, by show Nat.find hex ≤ n + 1; omega,
      Or.inr ⟨rfl, hopen, fun j hj => (hmin j hj).2⟩⟩

/-- C7: whenever the polling ends (some iteration fails its deadline test or has both probes
succeeding), the orchestrator reaches READY and spawns exactly one shell process if and only if
one of the ticks it ran has both the frontend probe and the backend probe succeeding in that
same tick; otherwise it reaches TIMED_OUT, spawns no process and exits with status 1. In
particular, if both succeed on the first tick the shell is spawned after that tick, and if no
tick ever has both succeeding the shell is not spawned. -/
theorem main_launches_iff_some_tick_ready (world : Nat → Tick) (startTime : Int)
    (shellExit : Option Int) (n fuel : Nat)
    (hstop : ¬ beforeDeadline world startTime n ∨ bothReady (world n) = true)
    (hfuel : n < fuel) :
    ∃ w r, waitForServers world startTime fuel = some w ∧
      main world startTime shellExit fuel = some r ∧
      ((w.ready = true ∧ r.spawned.length = 1) ↔
        ∃ j < w.ticks, bothReady (world j) = true) ∧
      ((¬ ∃ j < w.ticks, bothReady (world j) = true) →
        w.ready = false ∧ r.spawned = [] ∧ r.exitCode = some 1) ∧
      (bothReady (world 0) = true → w.ready = true ∧ w.ticks = 1 ∧ r.spawned.length = 1) ∧
      ((∀ j, bothReady (world j) = false) → w.ready = false ∧ r.spawned = []) := by
  obtain ⟨w, hw, _, hcase⟩ := waitForServers_stops world startTime n fuel hstop hfuel
  rcases hcase with ⟨hr, k, hk, hopen, hup, hdown⟩ | ⟨hr, hclosed, hdown⟩
  · refine ⟨w, launchElectron shellExit w.out, hw, by simp [main, hw, hr], ?_, ?_, ?_, ?_⟩
    · constructor
      · intro _; exact ⟨k, by omega, hup⟩
      · intro _; exact ⟨hr, rfl⟩
    · intro hno; exact absurd ⟨k, by omega, hup⟩ hno
    · intro h0
      refine ⟨hr, ?_, rfl⟩
      rcases Nat.eq_zero_or_pos k with hk0 | hkpos
      · omega
      · have := hdown 0 hkpos
        rw [h0] at this
        exact absurd this (by simp)
    · intro hall
      rw [hall k] at hup
      exact absurd hup (by simp)
  · refine ⟨w, { spawned := [], exitCode := some 1, out := w.out ++ [.failedToStart] }, hw,
      by simp [main, hw, hr], ?_, ?_, ?_, ?_⟩
    · constructor
      · intro h; rw [hr] at h; exact absurd h.1 (by simp)
      · intro ⟨j, hj, hb⟩
        rw [hdown j hj] at hb
        exact absurd hb (by simp)
    · intro _; exact ⟨hr, rfl, rfl⟩
    · intro h0
      rcases Nat.eq_zero_or_pos w.ticks with hz | hpos
      · rw [hz] at hclosed
        exact absurd (beforeDeadline_zero world startTime) hclosed
      · have := hdown 0 hpos
        rw [h0] at this
        exact absurd this (by simp)
    · intro _; exact ⟨hr, rfl⟩

/-- C7 at a concrete input: both endpoints are down in the first tick and up in the second. -/
theorem main_launches_iff_some_tick_ready_witness :
    (¬ beforeDeadline (upFrom 1) 0 1 ∨ bothReady (upFrom 1 1) = true) ∧
      ∃ w r, waitForServers (upFrom 1) 0 2 = some w ∧
        main (upFrom 1) 0 (some 0) 2 = some r ∧
        ((w.ready = true ∧ r.spawned.length = 1) ↔
          ∃ j < w.ticks, bothReady (upFrom 1 j) = true) ∧
        ((¬ ∃ j < w.ticks, bothReady (upFrom 1 j) = true) →
          w.ready = false ∧ r.spawned = [] ∧ r.exitCode = some 1) ∧
        (bothReady (upFrom 1 0) = true → w.ready = true ∧ w.ticks = 1 ∧ r.spawned.length = 1) ∧
        ((∀ j, bothReady (upFrom 1 j) = false) → w.ready = false ∧ r.spawned = []) :=
  ⟨Or.inr (by decide),
    main_launches_iff_some_tick_ready (upFrom 1) 0 (some 0) 1 2 (Or.inr (by decide))
      (by decide)⟩

/-- C8, as stated, fails: the deadline test of iteration 29 reads 59450 ms, the two probes
answer one second later, and `waitForServers` resolves to `true` 60450 ms after its start, past
the deadline of 60000 ms. -/
theorem ready_reported_after_deadline :
    (waitForServers (upFrom 29) 0 100).map (fun r => (r.ready, r.now - 0))
        = some (true, 60450) ∧
      MAX_WAIT < 60450 := by
  constructor <;> decide

/-- C8, amended: the deadline is tested at the start of each iteration only. If the first `n`
iterations start before the deadline with a failing probe and the test of iteration `n` reads an
elapsed time of `MAX_WAIT` or more, the result is TIMED_OUT, at that reading; and READY is only
ever reported for an iteration whose own test read an elapsed time below `MAX_WAIT`, at the
moment the probes of that iteration resolved. -/
theorem deadline_tested_at_iteration_start (world : Nat → Tick) (startTime : Int) :
    (∀ n fuel, n < fuel →
        (∀ j < n, beforeDeadline world startTime j ∧ bothReady (world j) = false) →
        MAX_WAIT ≤ checkTime world startTime n - startTime →
        ∃ r, waitForServers world startTime fuel = some r ∧ r.ready = false ∧ r.ticks = n ∧
          r.now = checkTime world startTime n) ∧
      (∀ fuel r, waitForServers world startTime fuel = some r → r.ready = true →
        ∃ k, r.ticks = k + 1 ∧ checkTime world startTime k - startTime < MAX_WAIT ∧
          bothReady (world k) = true ∧
          r.now = checkTime world startTime k + (world k).probeElapsed) := by
  constructor
  · intro n fuel hfuel hbefore hclosed
    obtain ⟨out, h⟩ := waitForServers_timeout_at world startTime n fuel hfuel hbefore
      (by unfold beforeDeadline; omega)
    exact ⟨_, h, rfl, rfl, rfl⟩
  · intro fuel r h hr
    exact pollLoop_ready_inv world startTime fuel 0 [.waitingForServers] r h hr

/-- C8, amended, at concrete inputs: endpoints that never come up within the deadline, and
endpoints that are up from the second tick on. -/
theorem deadline_tested_at_iteration_start_witness :
    (∃ r, waitForServers (upFrom 30) 0 31 = some r ∧ r.ready = false ∧ r.ticks = 30 ∧
        r.now = checkTime (upFrom 30) 0 30) ∧
      (∃ k, (2 : Nat) = k + 1 ∧ checkTime (upFrom 1) 0 k - 0 < MAX_WAIT ∧
        bothReady (upFrom 1 k) = true ∧
        (3050 : Int) = checkTime (upFrom 1) 0 k + (upFrom 1 k).probeElapsed) :=
  ⟨(deadline_tested_at_iteration_start (upFrom 30) 0).1 30 31 (by decide) (by decide)
      (by decide),
    (deadline_tested_at_iteration_start (upFrom 1) 0).2 5
      { ready := true, ticks := 2, now := 3050,
        out := [.waitingForServers, .waitingForFrontend FRONTEND_URL,
          .waitingForBackend BACKEND_URL, .bothServersReady] }
      (by decide) rfl⟩

/-- When the clock never goes back and moves on by `CHECK_INTERVAL` or more per iteration, the
deadline test of iteration `k` reads at least `k * CHECK_INTERVAL`. -/
theorem checkTime_lower_bound (world : Nat → Tick) (startTime : Int)
    (hclock : ∀ k, 0 ≤ (world k).probeElapsed ∧ 0 ≤ (world k).sleepElapsed ∧
      CHECK_INTERVAL ≤ (world k).probeElapsed + (world k).sleepElapsed) (k : Nat) :
    (k : Int) * CHECK_INTERVAL ≤ checkTime world startTime k - startTime := by
  induction k with
  | zero => simp [checkTime]
  | succ k ih =>
    have h := (hclock k).2.2
    simp only [checkTime]
    push_cast
    unfold CHECK_INTERVAL at *
    omega

/-- C10: provided the clock never goes back and moves on by at least `CHECK_INTERVAL` per tick,
`waitForServers` terminates after at most `MAX_WAIT / CHECK_INTERVAL = 30` ticks, resolving to
`true` (READY) or `false` (TIMED_OUT). -/
theorem waitForServers_terminates_within_30_ticks (world : Nat → Tick) (startTime : Int)
    (fuel : Nat)
    (hclock : ∀ k, 0 ≤ (world k).probeElapsed ∧ 0 ≤ (world k).sleepElapsed ∧
      CHECK_INTERVAL ≤ (world k).probeElapsed + (world k).sleepElapsed)
    (hfuel : 30 < fuel) :
    MAX_WAIT / CHECK_INTERVAL = 30 ∧
      ∃ r, waitForServers world startTime fuel = some r ∧ r.ticks ≤ 30 ∧
        (r.ready = true ∨ r.ready = false) := by
  refine ⟨by decide, ?_⟩
  have hex : ∃ n, ¬ beforeDeadline world startTime n := by
    refine ⟨30, ?_⟩
    have h := checkTime_lower_bound world startTime hclock 30
    unfold beforeDeadline
    unfold CHECK_INTERVAL at h
    unfold MAX_WAIT
    push_cast at h
    omega
  have hle : Nat.find hex ≤ 30 := by
    apply Nat.find_min' hex
    have h := checkTime_lower_bound world startTime hclock 30
    unfold beforeDeadline
    unfold CHECK_INTERVAL at h
    unfold MAX_WAIT
    push_cast at h
    omega
  obtain ⟨r, hr, hticks, _⟩ := waitForServers_resolves world startTime (Nat.find hex) fuel
    (fun j hj => not_not.mp (Nat.find_min hex hj)) (Nat.find_spec hex) (by omega)
  refine ⟨r, hr, by omega, ?_⟩
  cases r.ready <;> simp

/-- C10 at a concrete input: endpoints that stay down, with ticks of 2050 ms. -/
theorem waitForServers_terminates_within_30_ticks_witness :
    (∀ k, 0 ≤ (upFrom 1000 k).probeElapsed ∧ 0 ≤ (upFrom 1000 k).sleepElapsed ∧
        CHECK_INTERVAL ≤ (upFrom 1000 k).probeElapsed + (upFrom 1000 k).sleepElapsed) ∧
      MAX_WAIT / CHECK_INTERVAL = 30 ∧
      ∃ r, waitForServers (upFrom 1000) 0 31 = some r ∧ r.ticks ≤ 30 ∧
        (r.ready = true ∨ r.ready = false) :=
  have hclock : ∀ k, 0 ≤ (upFrom 1000 k).probeElapsed ∧ 0 ≤ (upFrom 1000 k).sleepElapsed ∧
      CHECK_INTERVAL ≤ (upFrom 1000 k).probeElapsed + (upFrom 1000 k).sleepElapsed := by
    intro k
    unfold upFrom
    split <;> decide
  ⟨hclock, waitForServers_terminates_within_30_ticks (upFrom 1000) 0 31 hclock (by decide)⟩

end PortfolioAnalytics
